import Mathlib

/-!
Shallow embedding of the TSDoc AST fragments found in the repository:
`TextRange` (with `getLocation`), `DocPlainText`, `DocMemberSymbol` and
`DocParamCollection`, together with theorems settling the specification
claims about them.  Buffers and text values are modelled as `List Char`;
JavaScript `number` indexes are modelled as `Int` (negative inputs matter
for the bounds checks); code that throws is modelled with `Except String`.
-/

/-- Text coordinates as a line and column number (`ITextLocation` in the
source).  The first character of a file is line 1, column 1; `{0,0}` is
the sentinel for an empty or unknown location. -/
structure ITextLocation where
  line : Nat
  column : Nat
deriving DecidableEq, Repr

/-- JavaScript `String.prototype.substring(start, end)`: both indexes are
clamped into `[0, length]` and swapped when `start > end`, then the slice
between them is returned. -/
def jsSubstring (s : List Char) (start stop : Int) : List Char :=
  let len : Int := s.length
  let a := min (max start 0) len
  let b := min (max stop 0) len
  let lo := min a b
  let hi := max a b
  (s.drop lo.toNat).take (hi - lo).toNat

/-- The `TextRange`: an immutable view `{buffer, pos, end}` into a string
buffer (`end` is spelled `end_` because `end` is reserved in Lean). -/
structure TextRange where
  buffer : List Char
  pos : Int
  end_ : Int
deriving DecidableEq, Repr

namespace TextRange

/-- The `TextRange._validateBounds`: the checks performed by the private
constructor, in source order; the first failing check throws. -/
def _validateBounds (buffer : List Char) (pos end_ : Int) : Except String Unit :=
  if pos < 0 then .error "TextRange.pos cannot be negative"
  else if end_ < 0 then .error "TextRange.end cannot be negative"
  else if end_ < pos then .error "TextRange.end cannot be smaller than TextRange.pos"
  else if pos > (buffer.length : Int) then
    .error "TextRange.pos cannot exceed the associated text buffer length"
  else if end_ > (buffer.length : Int) then
    .error "TextRange.end cannot exceed the associated text buffer length"
  else .ok ()

/-- The `TextRange.fromStringRange(buffer, pos, end)`: runs the private
constructor, which stores the three fields and validates the bounds. -/
def fromStringRange (buffer : List Char) (pos end_ : Int) : Except String TextRange :=
  (_validateBounds buffer pos end_).map (fun _ => ⟨buffer, pos, end_⟩)

/-- The `TextRange.fromString(buffer)`: the whole string; the private
constructor's validation always succeeds for `(0, buffer.length)`. -/
def fromString (buffer : List Char) : TextRange :=
  ⟨buffer, 0, buffer.length⟩

/-- The `TextRange.length`: computed as `end - pos`. -/
def length (r : TextRange) : Int :=
  r.end_ - r.pos

/-- The `TextRange.getNewRange(pos, end)`: a new validated range over the same
buffer. -/
def getNewRange (r : TextRange) (pos end_ : Int) : Except String TextRange :=
  fromStringRange r.buffer pos end_

/-- The `TextRange.isEmpty()`: `pos === end`. -/
def isEmpty (r : TextRange) : Bool :=
  r.pos == r.end_

/-- The `TextRange.toString()`: `buffer.substring(pos, end)`. -/
def toString (r : TextRange) : List Char :=
  jsSubstring r.buffer r.pos r.end_

/-- One iteration of the `getLocation` while-loop body, acting on the
`(line, column)` counters for the current character. -/
def locStep (loc : ITextLocation) (c : Char) : ITextLocation :=
  if c = '\r' then loc
  else if c = '\n' then ⟨loc.line + 1, 1⟩
  else ⟨loc.line, loc.column + 1⟩

/-- The `TextRange.getLocation(index)`: `{0,0}` when `index` is out of range,
otherwise the while-loop walks `buffer[0..index)` updating the counters;
modelled as a fold of `locStep` over that prefix. -/
def getLocation (r : TextRange) (index : Int) : ITextLocation :=
  if index < 0 ∨ index > (r.buffer.length : Int) then ⟨0, 0⟩
  else (r.buffer.take index.toNat).foldl locStep ⟨1, 1⟩

end TextRange

/-- Modelled from the spec: a `TokenSequence` (defined in the parser layer,
not among the visible sources) is an ordered run of tokens; the
concatenation of the token texts is the text the sequence covers, which is
what its `toString()` yields. -/
structure TokenSequence where
  tokens : List (List Char)
deriving DecidableEq, Repr

/-- The text covered by a token sequence (`TokenSequence.toString()`). -/
def TokenSequence.toString (ts : TokenSequence) : List Char :=
  ts.tokens.flatten

/-- The `ExcerptKind` values used by the nodes in the sources. -/
inductive ExcerptKind where
  | PlainText
  | Spacing
  | DocMemberSymbol_LeftBracket
  | DocMemberSymbol_RightBracket
deriving DecidableEq, Repr

/-- The `DocExcerpt`: associates an `ExcerptKind` with the backing token
sequence (`content`); the `configuration` field is omitted, no claim
touches it. -/
structure DocExcerpt where
  excerptKind : ExcerptKind
  content : TokenSequence
deriving DecidableEq, Repr

/-- Modelled from the spec: `DocDeclarationReference` (not among the
visible sources) is a structured reference expression; the claims treat it
opaquely, so it is a wrapper around an identity tag. -/
structure DocDeclarationReference where
  id : Nat
deriving DecidableEq, Repr

/-- Modelled from the spec: `DocParamBlock` (not among the visible
sources) is a parameter block keyed by its `parameterName`; the `id` field
stands for the rest of the object, so two blocks with the same name stay
distinguishable. -/
structure DocParamBlock where
  parameterName : List Char
  id : Nat
deriving DecidableEq, Repr

/-- The child-node variants occurring in the `onGetChildNodes` arrays of
the visible sources. -/
inductive DocNode where
  | excerpt (e : DocExcerpt)
  | declarationReference (r : DocDeclarationReference)
  | paramBlock (b : DocParamBlock)
deriving DecidableEq, Repr

/-- The two constructor-parameter shapes accepted by `DocPlainText`:
`IDocPlainTextParameters` (literal `text`) and
`IDocPlainTextParsedParameters` (a `textExcerpt` token sequence). -/
inductive DocPlainTextParams where
  | literal (text : List Char)
  | parsed (textExcerpt : TokenSequence)
deriving DecidableEq, Repr

/-- The `DocPlainText`: `_text` is the literal value or the lazy cache;
`_textExcerpt` is the backing excerpt of a parsed node. -/
structure DocPlainText where
  _text : Option (List Char)
  _textExcerpt : Option DocExcerpt
deriving DecidableEq, Repr

namespace DocPlainText

/-- The `DocPlainText` constructor.  For parsed parameters it wraps the
excerpt in a `DocExcerpt` of kind `PlainText`; for literal parameters it
throws when the text matches `_newlineCharacterRegExp` (`/[\n]/`),
otherwise it stores the text. -/
def construct : DocPlainTextParams → Except String DocPlainText
  | .parsed textExcerpt =>
    .ok ⟨none, some ⟨ExcerptKind.PlainText, textExcerpt⟩⟩
  | .literal text =>
    if text.contains '\n' then
      .error "The DocPlainText content must not contain newline characters"
    else
      .ok ⟨some text, none⟩

/-- The `text` getter: on first access of a parsed node it computes
`_textExcerpt!.content.toString()` and caches it in `_text`; it returns
the value together with the node carrying the updated cache.  The
`undefined` excerpt of the `!` assertion is unreachable for constructed
nodes and modelled by the empty string. -/
def text (n : DocPlainText) : List Char × DocPlainText :=
  match n._text with
  | some t => (t, n)
  | none =>
    match n._textExcerpt with
    | some e => (e.content.toString, { n with _text := some e.content.toString })
    | none => ([], n)

/-- The `textExcerpt` getter: the backing token sequence when the node was
parsed, otherwise `undefined`. -/
def textExcerpt (n : DocPlainText) : Option TokenSequence :=
  match n._textExcerpt with
  | some e => some e.content
  | none => none

/-- The `DocPlainText.onGetChildNodes()`: the single (possibly absent) excerpt
child. -/
def onGetChildNodes (n : DocPlainText) : List (Option DocNode) :=
  [n._textExcerpt.map DocNode.excerpt]

end DocPlainText

/-- The two constructor-parameter shapes accepted by `DocMemberSymbol`:
`IDocMemberSymbolParameters` (just the `symbolReference`) and
`IDocMemberSymbolParsedParameters` (bracket excerpts, optional spacing,
and the `symbolReference`). -/
inductive DocMemberSymbolParams where
  | literal (symbolReference : DocDeclarationReference)
  | parsed (leftBracketExcerpt : TokenSequence)
      (spacingAfterLeftBracketExcerpt : Option TokenSequence)
      (symbolReference : DocDeclarationReference)
      (rightBracketExcerpt : TokenSequence)
deriving DecidableEq, Repr

/-- The `DocMemberSymbol`: bracket and spacing excerpts are present only for
parsed nodes; the declaration reference is always present. -/
structure DocMemberSymbol where
  _leftBracketExcerpt : Option DocExcerpt
  _spacingAfterLeftBracketExcerpt : Option DocExcerpt
  _symbolReference : DocDeclarationReference
  _rightBracketExcerpt : Option DocExcerpt
deriving DecidableEq, Repr

namespace DocMemberSymbol

/-- The `DocMemberSymbol` constructor: parsed parameters wrap the bracket
excerpts (and the spacing excerpt when supplied) in `DocExcerpt`s of the
corresponding kinds; literal parameters store only the reference. -/
def construct : DocMemberSymbolParams → DocMemberSymbol
  | .literal ref => ⟨none, none, ref, none⟩
  | .parsed left spacing ref right =>
    ⟨some ⟨ExcerptKind.DocMemberSymbol_LeftBracket, left⟩,
     spacing.map (fun s => ⟨ExcerptKind.Spacing, s⟩),
     ref,
     some ⟨ExcerptKind.DocMemberSymbol_RightBracket, right⟩⟩

/-- The `symbolReference` getter. -/
def symbolReference (n : DocMemberSymbol) : DocDeclarationReference :=
  n._symbolReference

/-- The `DocMemberSymbol.onGetChildNodes()`: the four entries in source
order, absent optional children appearing as holes. -/
def onGetChildNodes (n : DocMemberSymbol) : List (Option DocNode) :=
  [n._leftBracketExcerpt.map DocNode.excerpt,
   n._spacingAfterLeftBracketExcerpt.map DocNode.excerpt,
   some (DocNode.declarationReference n._symbolReference),
   n._rightBracketExcerpt.map DocNode.excerpt]

end DocMemberSymbol

/-- The `DocParamCollection`: the ordered `_blocks` list and the lazily
allocated name index `_blocksByName` (a JavaScript `Map`, modelled as an
association list in key-insertion order; `undefined` before the first
`add`). -/
structure DocParamCollection where
  _blocks : List DocParamBlock
  _blocksByName : Option (List (List Char × DocParamBlock))
deriving DecidableEq, Repr

namespace DocParamCollection

/-- A freshly constructed collection: no blocks, no name index yet. -/
def new : DocParamCollection :=
  ⟨[], none⟩

/-- The `blocks` getter. -/
def blocks (c : DocParamCollection) : List DocParamBlock :=
  c._blocks

/-- The `count` getter: `_blocks.length`. -/
def count (c : DocParamCollection) : Nat :=
  c._blocks.length

/-- The `DocParamCollection.add(docParamBlock)`: pushes the block, allocates
the map on demand, and sets the name entry only when the name is not
present yet (the first block added for a name takes precedence). -/
def add (c : DocParamCollection) (docParamBlock : DocParamBlock) : DocParamCollection :=
  let m := match c._blocksByName with
    | none => []
    | some m => m
  let m' := if (m.lookup docParamBlock.parameterName).isSome then m
    else m ++ [(docParamBlock.parameterName, docParamBlock)]
  ⟨c._blocks ++ [docParamBlock], some m'⟩

/-- The `DocParamCollection.clear()`: empties the block list and discards the
name index. -/
def clear (_c : DocParamCollection) : DocParamCollection :=
  ⟨[], none⟩

/-- The `DocParamCollection.tryGetBlockByName(parameterName)`: a map lookup
when the map exists, `undefined` otherwise. -/
def tryGetBlockByName (c : DocParamCollection) (parameterName : List Char) :
    Option DocParamBlock :=
  match c._blocksByName with
  | some m => m.lookup parameterName
  | none => none

/-- The `DocParamCollection.onGetChildNodes()`: the blocks in order. -/
def onGetChildNodes (c : DocParamCollection) : List (Option DocNode) :=
  c._blocks.map (fun b => some (DocNode.paramBlock b))

/-- Adding a whole list of blocks in order (a sequence of `add` calls). -/
def addAll (c : DocParamCollection) (bs : List DocParamBlock) : DocParamCollection :=
  bs.foldl add c

end DocParamCollection

/-! ## Supporting lemmas -/

theorem fromStringRange_isOk_iff (buffer : List Char) (pos end_ : Int) :
    (TextRange.fromStringRange buffer pos end_).isOk = true ↔
      0 ≤ pos ∧ pos ≤ end_ ∧ end_ ≤ (buffer.length : Int) := by
  unfold TextRange.fromStringRange TextRange._validateBounds
  split_ifs with h1 h2 h3 h4 h5 <;> simp [Except.map, Except.isOk, Except.toBool] <;> omega

theorem fromStringRange_eq_ok (buffer : List Char) (pos end_ : Int) (r : TextRange)
    (h : TextRange.fromStringRange buffer pos end_ = .ok r) :
    r = ⟨buffer, pos, end_⟩ ∧ 0 ≤ pos ∧ pos ≤ end_ ∧ end_ ≤ (buffer.length : Int) := by
  have hok : (TextRange.fromStringRange buffer pos end_).isOk = true := by
    rw [h]; rfl
  refine ⟨?_, (fromStringRange_isOk_iff buffer pos end_).mp hok⟩
  unfold TextRange.fromStringRange TextRange._validateBounds at h
  split_ifs at h <;> simp [Except.map] at h
  exact h.symm

theorem jsSubstring_of_valid (s : List Char) (pos end_ : Int)
    (h1 : 0 ≤ pos) (h2 : pos ≤ end_) (h3 : end_ ≤ (s.length : Int)) :
    jsSubstring s pos end_ = (s.drop pos.toNat).take (end_ - pos).toNat := by
  unfold jsSubstring
  dsimp only
  rw [max_eq_left h1, min_eq_left (le_trans h2 h3),
    max_eq_left (le_trans h1 h2), min_eq_left h3,
    min_eq_left h2, max_eq_right h2]

/-- C1: `fromStringRange(buffer, pos, end)` (and `getNewRange`, which runs
the same constructor over the receiver's buffer) throws exactly when
`pos < 0`, `end < 0`, `end < pos`, `pos > length`, or `end > length`; for
every valid pair it succeeds and the new range's `toString()` is exactly
`buffer.substring(pos, end)`, i.e. the slice `buffer[pos..end)`. -/
theorem claim_C1 (buffer : List Char) (pos end_ : Int) :
    ((TextRange.fromStringRange buffer pos end_).isOk = true ↔
        ¬(pos < 0 ∨ end_ < 0 ∨ end_ < pos ∨
          pos > (buffer.length : Int) ∨ end_ > (buffer.length : Int)))
    ∧ (∀ r : TextRange, TextRange.fromStringRange buffer pos end_ = .ok r →
        r.toString = (buffer.drop pos.toNat).take (end_ - pos).toNat)
    ∧ (∀ r : TextRange, r.getNewRange pos end_ =
        TextRange.fromStringRange r.buffer pos end_) := by
  refine ⟨?_, ?_, fun _ => rfl⟩
  · rw [fromStringRange_isOk_iff]; omega
  · intro r hr
    obtain ⟨rfl, h1, h2, h3⟩ := fromStringRange_eq_ok buffer pos end_ r hr
    exact jsSubstring_of_valid buffer pos end_ h1 h2 h3

theorem claim_C1_witness :
    (TextRange.fromStringRange ['a', 'b'] 1 2).isOk = true
    ∧ TextRange.toString ⟨['a', 'b'], 1, 2⟩ = ['b']
    ∧ TextRange.getNewRange ⟨['a', 'b'], 0, 0⟩ 1 2
        = TextRange.fromStringRange ['a', 'b'] 1 2 := by
  have h := claim_C1 ['a', 'b'] 1 2
  refine ⟨h.1.mpr (by decide), ?_, h.2.2 ⟨['a', 'b'], 0, 0⟩⟩
  have h2 := h.2.1 ⟨['a', 'b'], 1, 2⟩ (by rfl)
  rw [h2]; decide

/-- C7: every range produced by a successful construction satisfies
`0 ≤ pos ≤ end ≤ length(buffer)` (also via `fromString`); `length` equals
`end - pos`; and `isEmpty()` holds exactly when `pos = end`.  The fields
are immutable: the only operation returning a range, `getNewRange`,
builds a fresh validated range over the same buffer and never alters the
receiver. -/
theorem claim_C7 (buffer b : List Char) (pos end_ p q : Int) (r : TextRange)
    (h : TextRange.fromStringRange buffer pos end_ = .ok r) :
    (0 ≤ r.pos ∧ r.pos ≤ r.end_ ∧ r.end_ ≤ (r.buffer.length : Int))
    ∧ r.length = r.end_ - r.pos
    ∧ (r.isEmpty = true ↔ r.pos = r.end_)
    ∧ (0 ≤ (TextRange.fromString b).pos
        ∧ (TextRange.fromString b).pos ≤ (TextRange.fromString b).end_
        ∧ (TextRange.fromString b).end_ ≤ ((TextRange.fromString b).buffer.length : Int))
    ∧ r.getNewRange p q = TextRange.fromStringRange r.buffer p q := by
  obtain ⟨rfl, h1, h2, h3⟩ := fromStringRange_eq_ok buffer pos end_ r h
  refine ⟨⟨h1, h2, h3⟩, rfl, ?_, ?_, rfl⟩
  · simp [TextRange.isEmpty]
  · refine ⟨le_refl 0, Int.ofNat_nonneg _, le_refl _⟩

theorem claim_C7_witness :
    (0 ≤ (⟨['a'], 0, 1⟩ : TextRange).pos
      ∧ (⟨['a'], 0, 1⟩ : TextRange).pos ≤ (⟨['a'], 0, 1⟩ : TextRange).end_
      ∧ (⟨['a'], 0, 1⟩ : TextRange).end_ ≤ (((⟨['a'], 0, 1⟩ : TextRange).buffer.length) : Int))
    ∧ (⟨['a'], 0, 1⟩ : TextRange).length = (⟨['a'], 0, 1⟩ : TextRange).end_ - (⟨['a'], 0, 1⟩ : TextRange).pos
    ∧ ((⟨['a'], 0, 1⟩ : TextRange).isEmpty = true ↔
        (⟨['a'], 0, 1⟩ : TextRange).pos = (⟨['a'], 0, 1⟩ : TextRange).end_)
    ∧ (0 ≤ (TextRange.fromString ['b']).pos
        ∧ (TextRange.fromString ['b']).pos ≤ (TextRange.fromString ['b']).end_
        ∧ (TextRange.fromString ['b']).end_ ≤ (((TextRange.fromString ['b']).buffer.length) : Int))
    ∧ (⟨['a'], 0, 1⟩ : TextRange).getNewRange 0 0
        = TextRange.fromStringRange (⟨['a'], 0, 1⟩ : TextRange).buffer 0 0 :=
  claim_C7 ['a'] ['b'] 0 1 0 0 ⟨['a'], 0, 1⟩ (by rfl)

/-- C3 fails as stated: `getLocation(0)` on a range over the empty buffer
does not return the `{0,0}` sentinel — index `0` passes the range check
(`0 > 0` is false), the loop body never runs, and `{line:1, column:1}` is
returned. -/
theorem claim_C3_counterexample :
    (TextRange.fromString []).getLocation 0 ≠ ⟨0, 0⟩ := by
  decide

/-- C3 (amended): `getLocation(index)` returns the `{0,0}` sentinel for
every index outside `[0, length(buffer)]`; but `getLocation(0)` on a range
over an empty buffer is in range and returns `{line:1, column:1}`. -/
theorem claim_C3_amended (r : TextRange) (i : Int)
    (h : i < 0 ∨ i > (r.buffer.length : Int)) :
    r.getLocation i = ⟨0, 0⟩
    ∧ (TextRange.fromString []).getLocation 0 = ⟨1, 1⟩ := by
  constructor
  · unfold TextRange.getLocation
    rw [if_pos h]
  · decide

theorem claim_C3_amended_witness :
    (TextRange.fromString ['a']).getLocation (-1) = ⟨0, 0⟩
    ∧ (TextRange.fromString []).getLocation 0 = ⟨1, 1⟩ :=
  claim_C3_amended (TextRange.fromString ['a']) (-1) (by decide)

theorem locStep_line (p : ITextLocation) (c : Char) :
    (TextRange.locStep p c).line = p.line + (if c = '\n' then 1 else 0) := by
  unfold TextRange.locStep
  by_cases h1 : c = '\r'
  · subst h1; simp
  · by_cases h2 : c = '\n' <;> simp [h1, h2]

theorem foldl_locStep_line (l : List Char) :
    ∀ p : ITextLocation,
      (l.foldl TextRange.locStep p).line = p.line + l.count '\n' := by
  induction l with
  | nil => intro p; simp
  | cons c t ih =>
    intro p
    simp only [List.foldl_cons, List.count_cons]
    rw [ih, locStep_line]
    by_cases h : c = '\n'
    · simp [h]; omega
    · simp [h]

/-- C5: for every in-range index, `getLocation(index).line` is `1` plus
the number of `\n` characters in `buffer[0..index)`; and stepping the
index over the character `c` at position `index` leaves the location
unchanged when `c` is `\r`, advances the line and resets the column to 1
when `c` is `\n`, and advances the column by exactly one for every other
character (including tab). -/
theorem claim_C5 (r : TextRange) (i : Int)
    (h0 : 0 ≤ i) (h1 : i ≤ (r.buffer.length : Int)) :
    (r.getLocation i).line = 1 + (r.buffer.take i.toNat).count '\n'
    ∧ ∀ c : Char, r.buffer[i.toNat]? = some c →
        r.getLocation (i + 1) =
          (if c = '\r' then r.getLocation i
           else if c = '\n' then ⟨(r.getLocation i).line + 1, 1⟩
           else ⟨(r.getLocation i).line, (r.getLocation i).column + 1⟩) := by
  have hin : ¬(i < 0 ∨ i > (r.buffer.length : Int)) := by omega
  have hL : r.getLocation i = (r.buffer.take i.toNat).foldl TextRange.locStep ⟨1, 1⟩ := by
    unfold TextRange.getLocation
    rw [if_neg hin]
  constructor
  · rw [hL, foldl_locStep_line]
  · intro c hc
    obtain ⟨hlt, -⟩ := List.getElem?_eq_some.mp hc
    have hin2 : ¬(i + 1 < 0 ∨ i + 1 > (r.buffer.length : Int)) := by omega
    have htn : (i + 1).toNat = i.toNat + 1 := by omega
    have hstep : r.getLocation (i + 1)
        = TextRange.locStep ((r.buffer.take i.toNat).foldl TextRange.locStep ⟨1, 1⟩) c := by
      unfold TextRange.getLocation
      rw [if_neg hin2, htn, List.take_succ, hc]
      simp [List.foldl_append]
    rw [hstep, hL]
    rfl

theorem claim_C5_witness :
    ((TextRange.fromString ['\n', 'b']).getLocation 2).line
        = 1 + ((TextRange.fromString ['\n', 'b']).buffer.take (2 : Int).toNat).count '\n'
    ∧ (TextRange.fromString ['\n', 'b']).getLocation 1
        = ⟨((TextRange.fromString ['\n', 'b']).getLocation 0).line + 1, 1⟩ := by
  have h2 := claim_C5 (TextRange.fromString ['\n', 'b']) 2 (by decide) (by decide)
  have h0 := claim_C5 (TextRange.fromString ['\n', 'b']) 0 (by decide) (by decide)
  refine ⟨h2.1, ?_⟩
  have hs := h0.2 '\n' (by rfl)
  have hne : ('\n' : Char) ≠ '\r' := by decide
  rw [if_neg hne, if_pos rfl] at hs
  simpa using hs

theorem construct_literal_ok (t : List Char) (h : '\n' ∉ t) :
    DocPlainText.construct (.literal t) = .ok ⟨some t, none⟩ := by
  simp only [DocPlainText.construct]
  rw [if_neg]
  simp only [List.contains, ne_eq]
  intro hc
  exact h (List.elem_iff.mp hc)

theorem construct_literal_cases (t : List Char) (n : DocPlainText)
    (h : DocPlainText.construct (.literal t) = .ok n) :
    n = ⟨some t, none⟩ ∧ '\n' ∉ t := by
  simp only [DocPlainText.construct] at h
  by_cases hc : t.contains '\n'
  · rw [if_pos hc] at h
    exact absurd h (by simp)
  · rw [if_neg hc] at h
    refine ⟨by injection h with h; exact h.symm, ?_⟩
    intro hm
    exact hc (List.elem_iff.mpr hm)

/-- C4: constructing a `DocPlainText` from literal parameters throws
exactly when the supplied text contains the `\n` character; for every
string without `\n` it succeeds and the `text` getter returns the
supplied string unchanged. -/
theorem claim_C4 (t : List Char) :
    ((DocPlainText.construct (.literal t)).isOk = true ↔ '\n' ∉ t)
    ∧ ∀ n : DocPlainText,
        DocPlainText.construct (.literal t) = .ok n → (n.text).1 = t := by
  constructor
  · constructor
    · intro hok hm
      obtain ⟨n, hn⟩ : ∃ n, DocPlainText.construct (.literal t) = .ok n := by
        cases hE : DocPlainText.construct (.literal t) with
        | ok n => exact ⟨n, rfl⟩
        | error s => rw [hE] at hok; exact absurd hok (by simp [Except.isOk, Except.toBool])
      exact (construct_literal_cases t n hn).2 hm
    · intro hm
      rw [construct_literal_ok t hm]
      rfl
  · intro n hn
    obtain ⟨rfl, -⟩ := construct_literal_cases t n hn
    rfl

theorem claim_C4_witness :
    (DocPlainText.construct (.literal ['a'])).isOk = true
    ∧ (DocPlainText.construct (.literal ['\n'])).isOk = false
    ∧ (DocPlainText.text ⟨some ['a'], none⟩).1 = ['a'] := by
  have h := claim_C4 ['a']
  have hbad := claim_C4 ['\n']
  refine ⟨h.1.mpr (by decide), ?_, h.2 ⟨some ['a'], none⟩ (by rfl)⟩
  have hne : ¬((DocPlainText.construct (.literal ['\n'])).isOk = true) :=
    fun hh => (by decide : ¬('\n' ∉ (['\n'] : List Char))) (hbad.1.mp hh)
  simpa using hne

/-- C10: the regular expression used by the literal constructor is
`/[\n]/`, so only the line feed is rejected: every string containing `\r`
but no `\n` constructs successfully, and the `text` getter returns it
unchanged, carriage return included. -/
theorem claim_C10 (t : List Char) (h1 : '\r' ∈ t) (h2 : '\n' ∉ t) :
    DocPlainText.construct (.literal t) = .ok ⟨some t, none⟩
    ∧ (DocPlainText.text ⟨some t, none⟩).1 = t
    ∧ '\r' ∈ (DocPlainText.text ⟨some t, none⟩).1 := by
  exact ⟨construct_literal_ok t h2, rfl, h1⟩

theorem claim_C10_witness :
    DocPlainText.construct (.literal ['x', '\r']) = .ok ⟨some ['x', '\r'], none⟩
    ∧ (DocPlainText.text ⟨some ['x', '\r'], none⟩).1 = ['x', '\r']
    ∧ '\r' ∈ (DocPlainText.text ⟨some ['x', '\r'], none⟩).1 :=
  claim_C10 ['x', '\r'] (by decide) (by decide)

/-- C6: for a parsed `DocPlainText` the `text` getter returns exactly the
backing excerpt's string content, computed on first access and cached
(`_text` is filled, and a second access returns the same value and
state); the `textExcerpt` getter returns the backing token sequence for
parsed nodes and `undefined` for literally-constructed ones. -/
theorem claim_C6 (e : TokenSequence) (t : List Char) (m : DocPlainText)
    (hm : DocPlainText.construct (.literal t) = .ok m) :
    DocPlainText.construct (.parsed e)
        = .ok ⟨none, some ⟨ExcerptKind.PlainText, e⟩⟩
    ∧ (DocPlainText.text ⟨none, some ⟨ExcerptKind.PlainText, e⟩⟩).1 = e.toString
    ∧ ((DocPlainText.text ⟨none, some ⟨ExcerptKind.PlainText, e⟩⟩).2)._text
        = some e.toString
    ∧ DocPlainText.text ((DocPlainText.text ⟨none, some ⟨ExcerptKind.PlainText, e⟩⟩).2)
        = ((DocPlainText.text ⟨none, some ⟨ExcerptKind.PlainText, e⟩⟩).1,
           (DocPlainText.text ⟨none, some ⟨ExcerptKind.PlainText, e⟩⟩).2)
    ∧ DocPlainText.textExcerpt ⟨none, some ⟨ExcerptKind.PlainText, e⟩⟩ = some e
    ∧ m.textExcerpt = none := by
  obtain ⟨rfl, -⟩ := construct_literal_cases t m hm
  exact ⟨rfl, rfl, rfl, rfl, rfl, rfl⟩

theorem claim_C6_witness :
    DocPlainText.construct (.parsed ⟨[['a'], ['b']]⟩)
        = .ok ⟨none, some ⟨ExcerptKind.PlainText, ⟨[['a'], ['b']]⟩⟩⟩
    ∧ (DocPlainText.text ⟨none, some ⟨ExcerptKind.PlainText, ⟨[['a'], ['b']]⟩⟩⟩).1
        = TokenSequence.toString ⟨[['a'], ['b']]⟩
    ∧ ((DocPlainText.text ⟨none, some ⟨ExcerptKind.PlainText, ⟨[['a'], ['b']]⟩⟩⟩).2)._text
        = some (TokenSequence.toString ⟨[['a'], ['b']]⟩)
    ∧ DocPlainText.text ((DocPlainText.text ⟨none, some ⟨ExcerptKind.PlainText, ⟨[['a'], ['b']]⟩⟩⟩).2)
        = ((DocPlainText.text ⟨none, some ⟨ExcerptKind.PlainText, ⟨[['a'], ['b']]⟩⟩⟩).1,
           (DocPlainText.text ⟨none, some ⟨ExcerptKind.PlainText, ⟨[['a'], ['b']]⟩⟩⟩).2)
    ∧ DocPlainText.textExcerpt ⟨none, some ⟨ExcerptKind.PlainText, ⟨[['a'], ['b']]⟩⟩⟩
        = some ⟨[['a'], ['b']]⟩
    ∧ DocPlainText.textExcerpt ⟨some ['c'], none⟩ = none :=
  claim_C6 ⟨[['a'], ['b']]⟩ ['c'] ⟨some ['c'], none⟩ (by rfl)

/-- C8: `getChildNodes` is ordered and may contain holes for absent
optional children.  For a parsed `DocMemberSymbol` the children are
`[leftBracketExcerpt, spacingAfterLeftBracketExcerpt, symbolReference,
rightBracketExcerpt]` in that order, the spacing entry being a hole when
no spacing was parsed; for a literally-constructed `DocMemberSymbol` the
bracket and spacing entries are all holes; and for a
literally-constructed `DocPlainText` the single child entry is a hole. -/
theorem claim_C8 (left right : TokenSequence) (sp : Option TokenSequence)
    (ref : DocDeclarationReference) (t : List Char) (n : DocPlainText)
    (h : DocPlainText.construct (.literal t) = .ok n) :
    (DocMemberSymbol.construct (.parsed left sp ref right)).onGetChildNodes
      = [some (DocNode.excerpt ⟨ExcerptKind.DocMemberSymbol_LeftBracket, left⟩),
         sp.map (fun s => DocNode.excerpt ⟨ExcerptKind.Spacing, s⟩),
         some (DocNode.declarationReference ref),
         some (DocNode.excerpt ⟨ExcerptKind.DocMemberSymbol_RightBracket, right⟩)]
    ∧ (sp = none →
        (DocMemberSymbol.construct (.parsed left sp ref right)).onGetChildNodes
          = [some (DocNode.excerpt ⟨ExcerptKind.DocMemberSymbol_LeftBracket, left⟩),
             none,
             some (DocNode.declarationReference ref),
             some (DocNode.excerpt ⟨ExcerptKind.DocMemberSymbol_RightBracket, right⟩)])
    ∧ (DocMemberSymbol.construct (.literal ref)).onGetChildNodes
        = [none, none, some (DocNode.declarationReference ref), none]
    ∧ n.onGetChildNodes = [none] := by
  obtain ⟨rfl, -⟩ := construct_literal_cases t n h
  refine ⟨?_, ?_, rfl, rfl⟩
  · cases sp <;> rfl
  · rintro rfl; rfl

theorem claim_C8_witness :
    (DocMemberSymbol.construct
        (.parsed ⟨[['[']]⟩ none ⟨7⟩ ⟨[[']']]⟩)).onGetChildNodes
      = [some (DocNode.excerpt ⟨ExcerptKind.DocMemberSymbol_LeftBracket, ⟨[['[']]⟩⟩),
         none,
         some (DocNode.declarationReference ⟨7⟩),
         some (DocNode.excerpt ⟨ExcerptKind.DocMemberSymbol_RightBracket, ⟨[[']']]⟩⟩)]
    ∧ (DocMemberSymbol.construct (.literal ⟨7⟩)).onGetChildNodes
        = [none, none, some (DocNode.declarationReference ⟨7⟩), none]
    ∧ DocPlainText.onGetChildNodes ⟨some ['a'], none⟩ = [none] := by
  have h := claim_C8 ⟨[['[']]⟩ ⟨[[']']]⟩ none ⟨7⟩ ['a'] ⟨some ['a'], none⟩ (by rfl)
  exact ⟨h.2.1 rfl, h.2.2.1, h.2.2.2⟩

theorem lookup_append_single {α β : Type} [BEq α] (m : List (α × β)) (k q : α) (v : β) :
    (m ++ [(k, v)]).lookup q =
      (match m.lookup q with
       | some w => some w
       | none => if q == k then some v else none) := by
  induction m with
  | nil =>
    cases h : q == k <;> simp [List.lookup, h]
  | cons p tl ih =>
    obtain ⟨pk, pv⟩ := p
    cases h : q == pk with
    | true => simp [List.lookup, h]
    | false => simp [List.lookup, h, ih]

/-- The relation between the lazily-built name index and the block list
that `add` maintains: a name lookup answers exactly what a scan of the
ordered list for the first block with that name would. -/
def ParamInv (c : DocParamCollection) : Prop :=
  ∀ name : List Char,
    c.tryGetBlockByName name = c._blocks.find? (fun b => b.parameterName == name)

theorem paramInv_new : ParamInv DocParamCollection.new := by
  intro name; rfl

theorem paramInv_none_nil (c : DocParamCollection) (hInv : ParamInv c)
    (h : c._blocksByName = none) : c._blocks = [] := by
  cases hb : c._blocks with
  | nil => rfl
  | cons b tl =>
    have hx := hInv b.parameterName
    unfold DocParamCollection.tryGetBlockByName at hx
    rw [h, hb, List.find?_cons_of_pos tl (beq_self_eq_true b.parameterName)] at hx
    exact absurd hx (by simp)

theorem blocks_add (c : DocParamCollection) (b : DocParamBlock) :
    (c.add b)._blocks = c._blocks ++ [b] :=
  rfl

theorem paramInv_add (c : DocParamCollection) (b : DocParamBlock) (hInv : ParamInv c) :
    ParamInv (c.add b) := by
  intro name
  have hTG : ∀ m', (c.add b)._blocksByName = some m' →
      (c.add b).tryGetBlockByName name = m'.lookup name := by
    intro m' hm'
    unfold DocParamCollection.tryGetBlockByName
    rw [hm']
  cases hm : c._blocksByName with
  | none =>
    have hnil := paramInv_none_nil c hInv hm
    unfold DocParamCollection.tryGetBlockByName DocParamCollection.add
    rw [hm, hnil]
    cases hq : name == b.parameterName with
    | true =>
      have hq' : (b.parameterName == name) = true := by
        rw [beq_iff_eq] at hq ⊢; exact hq.symm
      simp [List.lookup, List.find?, hq, hq']
    | false =>
      have hq' : (b.parameterName == name) = false := by
        rw [beq_eq_false_iff_ne] at hq ⊢; exact fun hh => hq hh.symm
      simp [List.lookup, List.find?, hq, hq']
  | some m =>
    have hl : m.lookup name = c._blocks.find? (fun x => x.parameterName == name) := by
      have hx := hInv name
      unfold DocParamCollection.tryGetBlockByName at hx
      rw [hm] at hx
      exact hx
    unfold DocParamCollection.add
    rw [hm]
    dsimp only
    by_cases hb : (m.lookup b.parameterName).isSome = true
    · rw [if_pos hb]
      unfold DocParamCollection.tryGetBlockByName
      dsimp only
      rw [hl, List.find?_append]
      cases hfb : c._blocks.find? (fun x => x.parameterName == name) with
      | some w => rw [Option.or_some]
      | none =>
        rw [Option.none_or]
        cases hq : b.parameterName == name with
        | true =>
          exfalso
          have : b.parameterName = name := beq_iff_eq.mp hq
          rw [this] at hb
          rw [hl, hfb] at hb
          exact absurd hb (by simp)
        | false => simp [List.find?, hq]
    · rw [if_neg hb]
      unfold DocParamCollection.tryGetBlockByName
      dsimp only
      rw [lookup_append_single, hl, List.find?_append]
      cases hfb : c._blocks.find? (fun x => x.parameterName == name) with
      | some w => rw [Option.or_some]
      | none =>
        rw [Option.none_or]
        cases hq : name == b.parameterName with
        | true =>
          have hq' : (b.parameterName == name) = true := by
            rw [beq_iff_eq] at hq ⊢; exact hq.symm
          simp [List.find?, hq, hq']
        | false =>
          have hq' : (b.parameterName == name) = false := by
            rw [beq_eq_false_iff_ne] at hq ⊢; exact fun hh => hq hh.symm
          simp [List.find?, hq, hq']

theorem paramInv_addAll (bs : List DocParamBlock) :
    ∀ c : DocParamCollection, ParamInv c → ParamInv (c.addAll bs) := by
  induction bs with
  | nil => intro c h; exact h
  | cons b tl ih => intro c h; exact ih (c.add b) (paramInv_add c b h)

theorem blocks_addAll (bs : List DocParamBlock) :
    ∀ c : DocParamCollection, (c.addAll bs)._blocks = c._blocks ++ bs := by
  induction bs with
  | nil => intro c; simp [DocParamCollection.addAll]
  | cons b tl ih =>
    intro c
    have h1 : (c.addAll (b :: tl)) = ((c.add b).addAll tl) := rfl
    rw [h1, ih (c.add b), blocks_add]
    simp

/-- C2: after any sequence of `add` calls on a fresh collection,
`tryGetBlockByName(name)` returns the first-added block whose
`parameterName` equals `name` (never a later duplicate), `count` is the
total number of blocks added including duplicates, and the `blocks` array
(the iteration order) is exactly the insertion order. -/
theorem claim_C2 (bs : List DocParamBlock) (name : List Char) :
    (DocParamCollection.new.addAll bs).count = bs.length
    ∧ (DocParamCollection.new.addAll bs).blocks = bs
    ∧ (DocParamCollection.new.addAll bs).tryGetBlockByName name
        = bs.find? (fun b => b.parameterName == name) := by
  have hb : (DocParamCollection.new.addAll bs)._blocks = bs := by
    rw [blocks_addAll]
    rfl
  refine ⟨?_, hb, ?_⟩
  · unfold DocParamCollection.count
    rw [hb]
  · have hx := paramInv_addAll bs DocParamCollection.new paramInv_new name
    rw [hb] at hx
    exact hx

/-- C9: after `clear()`, `count` is 0, the `blocks` array and hence the
iteration are empty, `tryGetBlockByName` answers `undefined` for every
name (the name index is discarded, not only the list), and the cleared
collection is literally a fresh one, so a subsequent `add` behaves as on
a freshly constructed collection. -/
theorem claim_C9 (c : DocParamCollection) (b : DocParamBlock) (name : List Char) :
    c.clear.count = 0
    ∧ c.clear.blocks = []
    ∧ c.clear.tryGetBlockByName name = none
    ∧ c.clear = DocParamCollection.new
    ∧ c.clear.add b = DocParamCollection.new.add b :=
  ⟨rfl, rfl, rfl, rfl, rfl⟩
